import Mathlib

/-!
Shallow embedding of the go-migrator repository.

The embedding covers:
* `Migration` and the loader `LoadMigrationsFromFS` / `parseMigrationFile`
  (from `migration.go`, fixtures revision);
* the runner `RunMigrations` (from `migrator.go`), modelled as `runMigrations`
  over an abstract `DriverSpec` mirroring the Go `MigrationDriver` interface,
  returning the run result together with the trace of driver calls, the log
  messages, the migrations applied, the final driver state and the state of
  the caller's slice after the in-place sort;
* the postgres driver `ApplyMigration`/`GetCurrentVersion`
  (from `drivers/postgres.go`) as `PgWorld.spec` over a ledger state;
* the executor `Execute` / `executeMigration` (from `executor/executor.go`).

Go `int` is modelled as `Int`; Go strings that are inspected character by
character (file names) are modelled as `List Char`, opaque SQL text as
`String`.  Go `context.Context` cancellation is modelled by the index of the
first `ctx.Err()` poll that reports cancellation.
-/

namespace GoMigrator

/-- The `Migration` struct of `migration.go` (fixtures revision):
version, name, migration SQL and fixtures SQL. -/
structure Migration where
  version : Int
  name : String
  migrationSQL : String
  fixturesSQL : String
  deriving Repr, DecidableEq

/-- Version comparison used by `sort.Slice` in `RunMigrations`
(`migrations[i].Version < migrations[j].Version`); the resulting order is
nondecreasing by version, captured by the reflexive relation. -/
def migLE (a b : Migration) : Prop := a.version ≤ b.version

instance : DecidableRel migLE := fun a b => Int.decLe a.version b.version

instance : IsTotal Migration migLE := ⟨fun a b => Int.le_total a.version b.version⟩

instance : IsTrans Migration migLE := ⟨fun _ _ _ => Int.le_trans⟩

/-- `sort.Slice(migrations, ...)` of `migrator.go`: an (unstable) in-place
sort by version, modelled as a version-sorted permutation of the input. -/
def sortMigrations (ms : List Migration) : List Migration :=
  List.insertionSort migLE ms

/-- One call made by `RunMigrations` on the `MigrationDriver` interface. -/
inductive Event where
  | connect
  | createTable
  | getVersion
  | apply (version : Int)
  | close
  deriving Repr, DecidableEq

/-- A message sent to the `Logger` interface. -/
inductive LogMsg where
  | info (msg : String)
  | error (msg : String)
  deriving Repr, DecidableEq

/-- Outcome of one `RunMigrations` invocation: the returned `error` value
(`ok` for `nil`), or a runtime panic (negative current version makes the Go
loop index the slice out of range). -/
inductive RunRes where
  | ok
  | fail (msg : String)
  | panicked
  deriving Repr, DecidableEq

/-- A `context.Context` as observed through `ctx.Err()` polls: `cancelAt = some c`
means the poll with 0-based index `c` is the first to report cancellation. -/
structure Ctx where
  cancelAt : Option Nat
  deriving Repr, DecidableEq

/-- Whether the `ctx.Err()` poll with index `poll` reports cancellation. -/
def Ctx.errAt (ctx : Ctx) (poll : Nat) : Bool :=
  match ctx.cancelAt with
  | none => false
  | some c => decide (c ≤ poll)

/-- The `MigrationDriver` interface of `migrator.go`, as a state machine over
driver state `σ`.  Each method returns its Go error result (`none` = `nil`)
and the driver state afterwards; `Close`'s error is discarded by the `defer`. -/
structure DriverSpec (σ : Type) where
  connect : σ → Option String × σ
  createMigrationsTable : σ → Option String × σ
  getCurrentVersion : σ → Except String Int × σ
  applyMigration : σ → Migration → Option String × σ
  close : σ → σ

/-- `if logger != nil` guard around each log statement in `migrator.go`. -/
def emit (hasLogger : Bool) (m : LogMsg) : List LogMsg :=
  if hasLogger then [m] else []

/-- Message of `fmt.Errorf("failed to connect to the database: %w", err)`. -/
def connectFailMsg (e : String) : String :=
  "failed to connect to the database: " ++ e

/-- Message of `fmt.Errorf("failed to create migrations table: %w", err)`. -/
def createFailMsg (e : String) : String :=
  "failed to create migrations table: " ++ e

/-- Message of `fmt.Errorf("failed to get current version: %w", err)`. -/
def versionFailMsg (e : String) : String :=
  "failed to get current version: " ++ e

/-- Message of `fmt.Errorf("failed to apply migration %d: %w", version, err)`. -/
def applyFailMsg (v : Int) (e : String) : String :=
  "failed to apply migration " ++ toString v ++ ": " ++ e

/-- Message of `ctx.Err()` after cancellation (`context.Canceled`). -/
def cancelMsg : String := "context canceled"

/-- Message of `fmt.Sprintf("applying migration %d: %s", ...)`. -/
def applyingMsg (m : Migration) : String :=
  "applying migration " ++ toString m.version ++ ": " ++ m.name

/-- Message of `fmt.Sprintf("current version: %d", currentVersion)`. -/
def currentVersionMsg (v : Int) : String :=
  "current version: " ++ toString v

/-- Message of `fmt.Sprintf("applied %d migrations", appliedMigrations)`. -/
def appliedCountMsg (n : Nat) : String :=
  "applied " ++ toString n ++ " migrations"

/-- Result of the apply loop of `RunMigrations`: the run result, the `apply`
events issued, the log messages, the migrations applied successfully (whose
count is the `appliedMigrations` counter) and the driver state afterwards. -/
structure LoopOut (σ : Type) where
  res : RunRes
  events : List Event
  log : List LogMsg
  applied : List Migration
  state : σ

/-- The loop `for i := currentVersion; i < len(migrations); i++` of
`migrator.go`, running over the pending suffix of the sorted slice.  `poll`
counts the `ctx.Err()` checks performed so far (one per iteration). -/
def runLoop {σ : Type} (d : DriverSpec σ) (hasLogger : Bool) (ctx : Ctx) :
    List Migration → Nat → σ → LoopOut σ
  | [], _, s => ⟨.ok, [], [], [], s⟩
  | m :: rest, poll, s =>
    if ctx.errAt poll then
      ⟨.fail cancelMsg, [], [], [], s⟩
    else
      match d.applyMigration s m with
      | (some e, s1) =>
        ⟨.fail (applyFailMsg m.version e), [.apply m.version],
          emit hasLogger (.info (applyingMsg m)) ++
            emit hasLogger (.error (applyFailMsg m.version e)), [], s1⟩
      | (none, s1) =>
        let out := runLoop d hasLogger ctx rest (poll + 1) s1
        ⟨out.res, .apply m.version :: out.events,
          emit hasLogger (.info (applyingMsg m)) ++ out.log,
          m :: out.applied, out.state⟩

/-- Everything observable about one `RunMigrations` invocation: the returned
result, the trace of driver calls, the log, the migrations applied, the final
driver state, and the contents of the caller's `migrations` slice after the
call (mutated in place by the sort on entry). -/
structure RunOutput (σ : Type) where
  res : RunRes
  events : List Event
  log : List LogMsg
  applied : List Migration
  state : σ
  sliceAfter : List Migration

/-- `RunMigrations` of `migrator.go`.  Sorts the slice in place, connects
(aborting without `Close` on failure), defers `Close`, creates the
migrations table, queries the current version and applies the pending
migrations sequentially, checking `ctx.Err()` before each one.  A negative
current version makes the Go loop index `migrations[i]` with `i < 0`:
after the first cancellation check the program panics (deferred `Close`
still runs during unwinding). -/
def runMigrations {σ : Type} (d : DriverSpec σ) (hasLogger : Bool) (ctx : Ctx)
    (migrations : List Migration) (s0 : σ) : RunOutput σ :=
  let sorted := sortMigrations migrations
  match d.connect s0 with
  | (some e, s1) =>
    ⟨.fail (connectFailMsg e), [.connect],
      emit hasLogger (.error (connectFailMsg e)), [], s1, sorted⟩
  | (none, s1) =>
    match d.createMigrationsTable s1 with
    | (some e, s2) =>
      ⟨.fail (createFailMsg e), [.connect, .createTable, .close],
        emit hasLogger (.error (createFailMsg e)), [], d.close s2, sorted⟩
    | (none, s2) =>
      match d.getCurrentVersion s2 with
      | (.error e, s3) =>
        ⟨.fail (versionFailMsg e), [.connect, .createTable, .getVersion, .close],
          emit hasLogger (.error (versionFailMsg e)), [], d.close s3, sorted⟩
      | (.ok v, s3) =>
        if v < 0 then
          if ctx.errAt 0 then
            ⟨.fail cancelMsg, [.connect, .createTable, .getVersion, .close],
              emit hasLogger (.info (currentVersionMsg v)), [], d.close s3, sorted⟩
          else
            ⟨.panicked, [.connect, .createTable, .getVersion, .close],
              emit hasLogger (.info (currentVersionMsg v)), [], d.close s3, sorted⟩
        else
          let out := runLoop d hasLogger ctx (sorted.drop v.toNat) 0 s3
          ⟨out.res, [.connect, .createTable, .getVersion] ++ out.events ++ [.close],
            emit hasLogger (.info (currentVersionMsg v)) ++ out.log ++
              (match out.res with
               | .ok => emit hasLogger (.info (appliedCountMsg out.applied.length))
               | _ => []),
            out.applied, d.close out.state, sorted⟩

/-- A stateless test driver with fixed method results, mirroring the
repository's own `mockDriver` test double (apply result keyed by version). -/
structure MockDriver where
  connectErr : Option String
  createErr : Option String
  versionRes : Except String Int
  applyErrOf : Int → Option String

/-- The `MigrationDriver` view of a `MockDriver` (trivial state). -/
def MockDriver.spec (d : MockDriver) : DriverSpec Unit where
  connect := fun s => (d.connectErr, s)
  createMigrationsTable := fun s => (d.createErr, s)
  getCurrentVersion := fun s => (d.versionRes, s)
  applyMigration := fun s m => (d.applyErrOf m.version, s)
  close := fun s => s

/-- State of the target database seen by the postgres driver: the ledger
rows `(id, name)` of the migrations table (`applied_at` omitted) and the
migration SQL texts committed so far. -/
structure PgState where
  ledger : List (Int × String)
  committed : List String
  deriving Repr, DecidableEq

/-- Environment of the postgres driver: connect/table-creation outcomes
and, for each migration SQL text, whether executing it fails. -/
structure PgWorld where
  connectErr : Option String
  createErr : Option String
  execErr : String → Option String

/-- `SELECT COALESCE(MAX(id), 0)` over the ledger rows. -/
def maxId : List (Int × String) → Int
  | [] => 0
  | r :: rest => rest.foldl (fun acc row => max acc row.fst) r.fst

/-- The postgres driver of `drivers/postgres.go` as a `DriverSpec` over
`PgState`.  `ApplyMigration` runs the migration SQL inside a transaction:
on failure the deferred rollback leaves the state unchanged and the error
is wrapped as `failed to apply migration (<name>): <err>`; on success the
ledger insert and the commit are modelled as succeeding, so the SQL is
committed and the ledger row `(version, name)` becomes visible atomically. -/
def PgWorld.spec (w : PgWorld) : DriverSpec PgState where
  connect := fun s => (w.connectErr, s)
  createMigrationsTable := fun s => (w.createErr, s)
  getCurrentVersion := fun s => (.ok (maxId s.ledger), s)
  applyMigration := fun s m =>
    match w.execErr m.migrationSQL with
    | some e => (some ("failed to apply migration (" ++ m.name ++ "): " ++ e), s)
    | none =>
      (none, ⟨s.ledger ++ [(m.version, m.name)], s.committed ++ [m.migrationSQL]⟩)
  close := fun s => s

/-- One entry returned by `fs.ReadDir`: its name and whether it is a
directory.  File names are lists of characters. -/
structure FSEntry where
  name : List Char
  isDir : Bool

/-- A filesystem as observed by the loader: the outcome of `fs.ReadDir`,
the directory entries, and the contents of each readable file
(`fs.Stat` succeeds exactly on the names with contents). -/
structure FileSys where
  readDirErr : Option String
  entries : List FSEntry
  contents : List Char → Option String

/-- The `".sql"` suffix. -/
def sqlSuffix : List Char := ".sql".data

/-- The `".fixture.sql"` suffix. -/
def fixtureSuffix : List Char := ".fixture.sql".data

/-- `strings.TrimSuffix`: remove `suf` from the end of `l` when present. -/
def trimSuffix (l suf : List Char) : List Char :=
  if suf.isSuffixOf l then l.take (l.length - suf.length) else l

/-- Value of a nonempty all-digit string, as read by `strconv.Atoi`. -/
def digitsVal (cs : List Char) : Option Nat :=
  if cs = [] then none
  else if cs.all (fun c => c.isDigit) then
    some (cs.foldl (fun acc c => acc * 10 + (c.toNat - 48)) 0)
  else none

/-- `strconv.Atoi`: an optional sign followed by at least one digit
(overflow ignored: versions are small). -/
def atoiL (cs : List Char) : Option Int :=
  match cs with
  | '-' :: rest => (digitsVal rest).map (fun n => -(n : Int))
  | '+' :: rest => (digitsVal rest).map (fun n => (n : Int))
  | _ => (digitsVal cs).map (fun n => (n : Int))

/-- The loader's error cases, one constructor per distinct error site of
`migration.go` (their Go messages are pairwise distinct, see
`LoadErr.message`). -/
inductive LoadErr where
  | readDirFail (e : String)
  | noMigrationsFound
  | invalidNameFormat (fileName : List Char)
  | versionParseFail (fileName : List Char)
  | versionNotPositive (fileName : List Char)
  | readFileFail (fileName : List Char)
  deriving Repr, DecidableEq

/-- The Go error message of each loader error (underlying wrapped errors
elided). -/
def LoadErr.message : LoadErr → String
  | .readDirFail e => "failed to read migrations from embedded filesystem: " ++ e
  | .noMigrationsFound => "no migrations found"
  | .invalidNameFormat f =>
    "invalid migration file name format for file: " ++ String.mk f ++
      ", (the format is <id>_<name>.sql)"
  | .versionParseFail f =>
    "failed to parse migration file version (" ++ String.mk f ++ ")"
  | .versionNotPositive f =>
    "migration file version cannot be <= 0: " ++ String.mk f
  | .readFileFail f =>
    "failed to read migration file (" ++ String.mk f ++ ")"

/-- `parseMigrationFile` of `migration.go` (fixtures revision).  Non-`.sql`
entries and `.fixture.sql` entries are skipped (`.ok none`); otherwise the
`.sql` suffix is trimmed, the version is the prefix up to the first
underscore (a base-10 integer `> 0`), the name is the rest, the migration
SQL is read back from `<stem>.sql`, and, when fixtures are enabled and
`<stem>.fixture.sql` exists, its contents populate `fixturesSQL` (a missing
fixture file leaves it empty). -/
def parseMigrationFile (afs : FileSys) (fileName0 : List Char) (fixtures : Bool) :
    Except LoadErr (Option Migration) :=
  if ¬ sqlSuffix.isSuffixOf fileName0 then .ok none
  else if fixtureSuffix.isSuffixOf fileName0 then .ok none
  else
    match (trimSuffix fileName0 sqlSuffix).findIdx? (fun c => c = '_') with
    | none => .error (.invalidNameFormat (trimSuffix fileName0 sqlSuffix))
    | some idx =>
      match atoiL ((trimSuffix fileName0 sqlSuffix).take idx) with
      | none => .error (.versionParseFail (trimSuffix fileName0 sqlSuffix))
      | some v =>
        if v ≤ 0 then .error (.versionNotPositive (trimSuffix fileName0 sqlSuffix))
        else
          match afs.contents (trimSuffix fileName0 sqlSuffix ++ sqlSuffix) with
          | none => .error (.readFileFail (trimSuffix fileName0 sqlSuffix))
          | some sql =>
            if fixtures then
              match afs.contents (trimSuffix fileName0 sqlSuffix ++ fixtureSuffix) with
              | some fx =>
                .ok (some ⟨v, String.mk ((trimSuffix fileName0 sqlSuffix).drop (idx + 1)),
                  sql, fx⟩)
              | none =>
                .ok (some ⟨v, String.mk ((trimSuffix fileName0 sqlSuffix).drop (idx + 1)),
                  sql, ""⟩)
            else
              .ok (some ⟨v, String.mk ((trimSuffix fileName0 sqlSuffix).drop (idx + 1)),
                sql, ""⟩)

/-- The entry loop of `LoadMigrationsFromFS`: directories are skipped,
parse errors abort the load, skipped entries (`.ok none`) are dropped,
parsed migrations are collected in discovery order. -/
def loadEntries (afs : FileSys) (fixtures : Bool) : List FSEntry → Except LoadErr (List Migration)
  | [] => .ok []
  | f :: rest =>
    if f.isDir then loadEntries afs fixtures rest
    else
      match parseMigrationFile afs f.name fixtures with
      | .error e => .error e
      | .ok none => loadEntries afs fixtures rest
      | .ok (some m) =>
        match loadEntries afs fixtures rest with
        | .error e => .error e
        | .ok ms => .ok (m :: ms)

/-- `LoadMigrationsFromFS` of `migration.go` (fixtures revision): propagate
a `ReadDir` failure, fail with `no migrations found` when the raw entry
list is empty, then run the entry loop. -/
def LoadMigrationsFromFS (afs : FileSys) (fixtures : Bool) : Except LoadErr (List Migration) :=
  match afs.readDirErr with
  | some e => .error (.readDirFail e)
  | none =>
    if afs.entries.length = 0 then .error .noMigrationsFound
    else loadEntries afs fixtures afs.entries

/-- A `migrationConfig` of `executor/config.go`: target name, source
directory, and whether a postgres driver block is configured
(`getDriver()` returns `nil` exactly when it is not). -/
structure MigrationConfig where
  name : String
  source : String
  hasPostgres : Bool
  deriving Repr, DecidableEq

/-- The executor `Config`: retry budget, fixtures flag and the targets
(timeout and retry delay act only through the modelled context). -/
structure ExecConfig where
  maxRetries : Nat
  fixtures : Bool
  migrations : List MigrationConfig

/-- The world one `Execute` call runs in: the filesystem behind each source
path, the database behaviour behind each target (as a `MockDriver`), and
the shared context's cancellation point. -/
structure ExecWorld where
  fsOf : String → FileSys
  driverOf : String → MockDriver
  cancelAt : Option Nat

/-- Outcome of one target's unit in `executeMigration`: driver unresolved,
load failure, or the results of the `RunMigrations` attempts made by the
retry loop. -/
inductive UnitResult where
  | noDriver
  | loadError (e : LoadErr)
  | ran (attempts : List RunRes)
  deriving Repr, DecidableEq

/-- The retry loop of `executeMigration`
(`for i := 0; i < cfg.MaxRetries; i++`): run, stop on the first success,
otherwise sleep and retry until the budget is exhausted. -/
def retryAttempts (d : MockDriver) (ctx : Ctx) (ms : List Migration) : Nat → List RunRes
  | 0 => []
  | n + 1 =>
    let r := (runMigrations d.spec true ctx ms ()).res
    if r = .ok then [r] else r :: retryAttempts d ctx ms n

/-- `executeMigration` of `executor/executor.go`: resolve the driver (log
and return when unresolved), load the migration set (log and return on
failure, no retry), then invoke `RunMigrations` under the retry loop.
The Go function returns nothing; its observable outcome is recorded. -/
def executeMigration (w : ExecWorld) (cfg : ExecConfig) (mcfg : MigrationConfig) : UnitResult :=
  if ¬ mcfg.hasPostgres then .noDriver
  else
    match LoadMigrationsFromFS (w.fsOf mcfg.source) cfg.fixtures with
    | .error e => .loadError e
    | .ok ms => .ran (retryAttempts (w.driverOf mcfg.name) ⟨w.cancelAt⟩ ms cfg.maxRetries)

/-- `Execute` of `executor/executor.go`: one unit per target, joined by the
wait group (units share no state, so the concurrent fan-out is modelled by
evaluating each unit), then `return true` — unconditionally, as in the
source.  The returned pair is the Go boolean together with the units'
observable outcomes. -/
def Execute (w : ExecWorld) (cfg : ExecConfig) : Bool × List UnitResult :=
  (true, cfg.migrations.map (executeMigration w cfg))

/-- Modelled from the spec: "the process reports overall success only if
every target's unit eventually succeeded" — a unit succeeded when its
driver resolved, its migration set loaded, and some attempt of
`RunMigrations` returned success.  (The Go `executeMigration` returns no
value, so this predicate exists only on the spec side, for comparison with
`Execute`'s aggregate flag.) -/
def unitSucceededSpec : UnitResult → Bool
  | .ran attempts => attempts.contains .ok
  | _ => false

deriving instance DecidableEq for Except

/-- Driver state after successfully applying `pre` in order starting
from `s`. -/
def pgAfter (s : PgState) (pre : List Migration) : PgState :=
  ⟨s.ledger ++ pre.map (fun m => (m.version, m.name)),
    s.committed ++ pre.map (fun m => m.migrationSQL)⟩

/-! ### Concrete instances used by counterexamples and witnesses -/

/-- A driver for which every call succeeds at version 0. -/
def okDriver : MockDriver := ⟨none, none, .ok 0, fun _ => none⟩

/-- A migration with version 1. -/
def mig1 : Migration := ⟨1, "one", "SQL1", ""⟩

/-- A migration with version 2. -/
def mig2 : Migration := ⟨2, "two", "SQL2", ""⟩

/-- A world whose sources are all empty and whose databases all succeed. -/
def c1World : ExecWorld := ⟨fun _ => ⟨none, [], fun _ => none⟩, fun _ => okDriver, none⟩

/-- A configuration with a single target that has no driver configured, so
its unit fails fast with an unresolved driver. -/
def c1Config : ExecConfig := ⟨5, false, [⟨"t1", "migrations", false⟩]⟩

/-- A source containing one subdirectory and nothing else. -/
def c4DirFS : FileSys := ⟨none, [⟨"subdir".data, true⟩], fun _ => none⟩

/-- A completely empty source. -/
def c4EmptyFS : FileSys := ⟨none, [], fun _ => none⟩

/-- A source holding exactly the file `10_add_index_to_users_table.sql`. -/
def c5FS : FileSys := ⟨none, [⟨"10_add_index_to_users_table.sql".data, false⟩],
  fun n => if n = "10_add_index_to_users_table.sql".data then some "CREATE INDEX" else none⟩

/-- A migration with version 1 whose SQL executes. -/
def c6m1 : Migration := ⟨1, "a", "OK1", ""⟩

/-- A migration with version 2 whose SQL fails. -/
def c6m2 : Migration := ⟨2, "b", "BAD", ""⟩

/-- A database world in which only the SQL text `BAD` fails to execute. -/
def c6World : PgWorld := ⟨none, none, fun sql => if sql = "BAD" then some "boom" else none⟩

/-- An empty initial database state. -/
def c6s0 : PgState := ⟨[], []⟩

/-- A source holding a migration file and its fixture companion. -/
def c9FS : FileSys := ⟨none,
  [⟨"1_a.sql".data, false⟩, ⟨"1_a.fixture.sql".data, false⟩],
  fun n => if n = "1_a.sql".data then some "CREATE" else
    if n = "1_a.fixture.sql".data then some "FIX" else none⟩

/-! ### Helper lemmas about the runner -/

lemma sortMigrations_perm (ms : List Migration) : (sortMigrations ms).Perm ms :=
  List.perm_insertionSort migLE ms

lemma sortMigrations_sorted (ms : List Migration) : List.Sorted migLE (sortMigrations ms) :=
  List.sorted_insertionSort migLE ms

lemma errAt_none (p : Nat) : Ctx.errAt ⟨none⟩ p = false := rfl

/-- The caller's slice after any `runMigrations` call holds the sorted
migrations, whatever the driver and context did. -/
lemma runMigrations_sliceAfter {σ : Type} (d : DriverSpec σ) (hl : Bool) (ctx : Ctx)
    (ms : List Migration) (s0 : σ) :
    (runMigrations d hl ctx ms s0).sliceAfter = sortMigrations ms := by
  unfold runMigrations
  repeat' split
  all_goals rfl

/-- The apply loop issues only `apply` events. -/
lemma runLoop_events_apply {σ : Type} (d : DriverSpec σ) (hl : Bool) (ctx : Ctx) :
    ∀ (ms : List Migration) (p : Nat) (s : σ),
      ∀ ev ∈ (runLoop d hl ctx ms p s).events, ∃ v, ev = Event.apply v := by
  intro ms
  induction ms with
  | nil => intro p s ev hev; simp [runLoop] at hev
  | cons m rest ih =>
    intro p s ev hev
    by_cases hc : ctx.errAt p
    · simp [runLoop, hc] at hev
    · rcases ha : d.applyMigration s m with ⟨e1, s1⟩
      cases e1 with
      | some e =>
        simp [runLoop, hc, ha] at hev
        exact ⟨m.version, hev⟩
      | none =>
        simp [runLoop, hc, ha, List.mem_cons] at hev
        rcases hev with h | h
        · exact ⟨m.version, h⟩
        · exact ih (p + 1) s1 ev h

/-- When the context is never cancelled and every apply succeeds, the loop
succeeds, applies the whole pending list in order and issues exactly its
apply events. -/
lemma runLoop_all_ok {σ : Type} (d : DriverSpec σ) (hl : Bool) :
    ∀ (ms : List Migration) (p : Nat) (s : σ),
      (∀ (s' : σ) (m : Migration), m ∈ ms → (d.applyMigration s' m).1 = none) →
      (runLoop d hl ⟨none⟩ ms p s).res = .ok ∧
      (runLoop d hl ⟨none⟩ ms p s).applied = ms ∧
      (runLoop d hl ⟨none⟩ ms p s).events = ms.map (fun m => Event.apply m.version) := by
  intro ms
  induction ms with
  | nil => intro p s _; refine ⟨rfl, rfl, rfl⟩
  | cons m rest ih =>
    intro p s h
    rcases ha : d.applyMigration s m with ⟨e1, s1⟩
    have he1 : e1 = none := by
      have := h s m (List.mem_cons_self m rest)
      rwa [ha] at this
    subst he1
    have hrest := ih (p + 1) s1 (fun s' x hx => h s' x (List.mem_cons_of_mem m hx))
    simp [runLoop, errAt_none, ha, hrest.1, hrest.2.1, hrest.2.2]

@[simp]
lemma mock_connect (d : MockDriver) (s : Unit) : d.spec.connect s = (d.connectErr, s) := rfl

@[simp]
lemma mock_create (d : MockDriver) (s : Unit) :
    d.spec.createMigrationsTable s = (d.createErr, s) := rfl

@[simp]
lemma mock_version (d : MockDriver) (s : Unit) :
    d.spec.getCurrentVersion s = (d.versionRes, s) := rfl

@[simp]
lemma mock_apply (d : MockDriver) (s : Unit) (m : Migration) :
    d.spec.applyMigration s m = (d.applyErrOf m.version, s) := rfl

@[simp]
lemma mock_close (d : MockDriver) (s : Unit) : d.spec.close s = s := rfl

/-- The apply loop never issues a `close` event. -/
lemma runLoop_close_count {σ : Type} (d : DriverSpec σ) (hl : Bool) (ctx : Ctx)
    (ms : List Migration) (p : Nat) (s : σ) :
    (runLoop d hl ctx ms p s).events.count Event.close = 0 := by
  rw [List.count_eq_zero]
  intro hmem
  rcases runLoop_events_apply d hl ctx ms p s Event.close hmem with ⟨v, hv⟩
  cases hv

/-- C10: every `RunMigrations` call leaves the caller's slice permuted into
ascending version order, regardless of driver results or cancellation —
the in-place sort happens before `Connect` is attempted. -/
theorem C10_slice_sorted_in_place {σ : Type} (d : DriverSpec σ) (hl : Bool) (ctx : Ctx)
    (ms : List Migration) (s0 : σ) :
    (runMigrations d hl ctx ms s0).sliceAfter.Perm ms ∧
    List.Sorted migLE (runMigrations d hl ctx ms s0).sliceAfter := by
  rw [runMigrations_sliceAfter]
  exact ⟨sortMigrations_perm ms, sortMigrations_sorted ms⟩

/-- C7: once `Connect` succeeds, `Close` is called exactly once and is the
last driver call on every exit path; when `Connect` fails, the runner stops
after the `connect` call and `Close` is never called. -/
theorem C7_close_exactly_once {σ : Type} (d : DriverSpec σ) (hl : Bool) (ctx : Ctx)
    (ms : List Migration) (s0 : σ) :
    ((d.connect s0).1 = none →
      (runMigrations d hl ctx ms s0).events.count Event.close = 1 ∧
      (runMigrations d hl ctx ms s0).events.getLast? = some Event.close) ∧
    (∀ e, (d.connect s0).1 = some e →
      (runMigrations d hl ctx ms s0).events = [Event.connect]) := by
  rcases h1 : d.connect s0 with ⟨e1, s1⟩
  cases e1 with
  | some e =>
    constructor
    · intro hconn; simp at hconn
    · intro e' _; simp [runMigrations, h1]
  | none =>
    constructor
    · intro _
      rcases h2 : d.createMigrationsTable s1 with ⟨e2, s2⟩
      cases e2 with
      | some e => simp [runMigrations, h1, h2]
      | none =>
        rcases h3 : d.getCurrentVersion s2 with ⟨r3, s3⟩
        cases r3 with
        | error e => simp [runMigrations, h1, h2, h3]
        | ok v =>
          by_cases hv : v < 0
          · by_cases hc : ctx.errAt 0 <;> simp [runMigrations, h1, h2, h3, hv, hc]
          · have hcnt := runLoop_close_count d hl ctx
              ((sortMigrations ms).drop v.toNat) 0 s3
            constructor
            · simp [runMigrations, h1, h2, h3, hv, List.count_append, hcnt]
            · simp only [runMigrations, h1, h2, h3, hv, if_false]
              exact List.getLast?_concat _
    · intro e' he'; simp at he'

/-- C2: with a driver whose connect, table setup and version query succeed
with version `v ≥ 0`, no cancellation and all applies succeeding, the run
succeeds and applies exactly the migrations at sorted indices `v` onwards —
`max(0, n - v)` of them, in ascending version order. -/
theorem C2_applies_pending_suffix (d : MockDriver) (hl : Bool) (ms : List Migration) (v : Int)
    (hconn : d.connectErr = none) (hcreate : d.createErr = none)
    (hver : d.versionRes = .ok v) (hv : 0 ≤ v)
    (happ : ∀ k : Int, d.applyErrOf k = none) :
    (runMigrations d.spec hl ⟨none⟩ ms ()).res = .ok ∧
    (runMigrations d.spec hl ⟨none⟩ ms ()).applied = (sortMigrations ms).drop v.toNat ∧
    (runMigrations d.spec hl ⟨none⟩ ms ()).applied.length = ms.length - v.toNat ∧
    List.Sorted migLE (runMigrations d.spec hl ⟨none⟩ ms ()).applied := by
  have hloop := runLoop_all_ok d.spec hl ((sortMigrations ms).drop v.toNat) 0 ()
    (fun s' m _ => by simp [happ])
  have hnv : ¬ v < 0 := not_lt.mpr hv
  have hres : (runMigrations d.spec hl ⟨none⟩ ms ()).res = .ok := by
    simp only [runMigrations, mock_connect, mock_create, mock_version, mock_close,
      hconn, hcreate, hver, hnv, if_false]
    exact hloop.1
  have happl : (runMigrations d.spec hl ⟨none⟩ ms ()).applied =
      (sortMigrations ms).drop v.toNat := by
    simp only [runMigrations, mock_connect, mock_create, mock_version, mock_close,
      hconn, hcreate, hver, hnv, if_false]
    exact hloop.2.1
  refine ⟨hres, happl, ?_, ?_⟩
  · rw [happl, List.length_drop, (sortMigrations_perm ms).length_eq]
  · rw [happl]
    exact (sortMigrations_sorted ms).sublist (List.drop_sublist _ _)

/-- Witness for C2 at a concrete driver and migration set. -/
theorem C2_applies_pending_suffix_witness :
    (runMigrations (⟨none, none, .ok 1, fun _ => none⟩ : MockDriver).spec true ⟨none⟩
      [⟨2, "b", "s2", ""⟩, ⟨1, "a", "s1", ""⟩] ()).res = .ok ∧
    (runMigrations (⟨none, none, .ok 1, fun _ => none⟩ : MockDriver).spec true ⟨none⟩
      [⟨2, "b", "s2", ""⟩, ⟨1, "a", "s1", ""⟩] ()).applied =
      (sortMigrations [⟨2, "b", "s2", ""⟩, ⟨1, "a", "s1", ""⟩]).drop (1 : Int).toNat ∧
    (runMigrations (⟨none, none, .ok 1, fun _ => none⟩ : MockDriver).spec true ⟨none⟩
      [⟨2, "b", "s2", ""⟩, ⟨1, "a", "s1", ""⟩] ()).applied.length = 2 - (1 : Int).toNat ∧
    List.Sorted migLE (runMigrations (⟨none, none, .ok 1, fun _ => none⟩ : MockDriver).spec
      true ⟨none⟩ [⟨2, "b", "s2", ""⟩, ⟨1, "a", "s1", ""⟩] ()).applied :=
  C2_applies_pending_suffix ⟨none, none, .ok 1, fun _ => none⟩ true
    [⟨2, "b", "s2", ""⟩, ⟨1, "a", "s1", ""⟩] 1 rfl rfl rfl (by decide) (fun _ => rfl)

/-- C3 counterexample: two fully successful runs that apply different
numbers of migrations (2 and 0) return the very same result value, so the
result of `RunMigrations` does not carry the applied count — the Go
function returns only an `error`, `nil` on success. -/
theorem C3_counterexample_result_carries_no_count :
    (runMigrations okDriver.spec true ⟨none⟩ [mig1, mig2] ()).res =
      (runMigrations okDriver.spec true ⟨none⟩ ([] : List Migration) ()).res ∧
    (runMigrations okDriver.spec true ⟨none⟩ [mig1, mig2] ()).applied.length = 2 ∧
    (runMigrations okDriver.spec true ⟨none⟩ ([] : List Migration) ()).applied.length = 0 := by
  decide

/-- C3 amended: on full success `RunMigrations` returns success carrying no
count; the count of migrations applied in the invocation is reported through
the logger as the final `applied N migrations` info message. -/
theorem C3_amended_count_logged_not_returned (d : MockDriver) (ms : List Migration) (v : Int)
    (hconn : d.connectErr = none) (hcreate : d.createErr = none)
    (hver : d.versionRes = .ok v) (hv : 0 ≤ v)
    (happ : ∀ k : Int, d.applyErrOf k = none) :
    (runMigrations d.spec true ⟨none⟩ ms ()).res = .ok ∧
    (runMigrations d.spec true ⟨none⟩ ms ()).log.getLast? =
      some (.info (appliedCountMsg ((runMigrations d.spec true ⟨none⟩ ms ()).applied.length))) ∧
    (runMigrations d.spec true ⟨none⟩ ms ()).applied.length = ms.length - v.toNat := by
  have hloop := runLoop_all_ok d.spec true ((sortMigrations ms).drop v.toNat) 0 ()
    (fun s' m _ => by simp [happ])
  have hnv : ¬ v < 0 := not_lt.mpr hv
  have happl : (runMigrations d.spec true ⟨none⟩ ms ()).applied =
      (sortMigrations ms).drop v.toNat := by
    simp only [runMigrations, mock_connect, mock_create, mock_version, mock_close,
      hconn, hcreate, hver, hnv, if_false]
    exact hloop.2.1
  refine ⟨?_, ?_, ?_⟩
  · simp only [runMigrations, mock_connect, mock_create, mock_version, mock_close,
      hconn, hcreate, hver, hnv, if_false]
    exact hloop.1
  · rw [happl]
    simp only [runMigrations, mock_connect, mock_create, mock_version, mock_close,
      hconn, hcreate, hver, hnv, if_false]
    rw [hloop.1, hloop.2.1]
    simp only [emit, if_true]
    exact List.getLast?_concat _
  · rw [happl, List.length_drop, (sortMigrations_perm ms).length_eq]

/-- Witness for the amended C3 at a concrete driver and migration set. -/
theorem C3_amended_count_logged_not_returned_witness :
    (runMigrations okDriver.spec true ⟨none⟩ [mig1, mig2] ()).res = .ok ∧
    (runMigrations okDriver.spec true ⟨none⟩ [mig1, mig2] ()).log.getLast? =
      some (.info (appliedCountMsg
        ((runMigrations okDriver.spec true ⟨none⟩ [mig1, mig2] ()).applied.length))) ∧
    (runMigrations okDriver.spec true ⟨none⟩ [mig1, mig2] ()).applied.length =
      [mig1, mig2].length - (0 : Int).toNat :=
  C3_amended_count_logged_not_returned okDriver [mig1, mig2] 0 rfl rfl rfl
    (by decide) (fun _ => rfl)

/-- C1: `Execute` returns `true` for every configuration — the Go function
ends in an unconditional `return true` — so it reports success even when a
target's unit fails; at `c1Config` the only unit fails with an unresolved
driver, which the spec-side success predicate rejects, yet the aggregate
flag is still `true`. -/
theorem C1_execute_always_true_despite_unit_failure :
    (∀ (w : ExecWorld) (cfg : ExecConfig), (Execute w cfg).1 = true) ∧
    (Execute c1World c1Config).2 = [.noDriver] ∧
    unitSucceededSpec .noDriver = false :=
  ⟨fun _ _ => rfl, rfl, rfl⟩

/-! ### Lemmas about the postgres driver model -/

@[simp]
lemma pg_connect (w : PgWorld) (s : PgState) : w.spec.connect s = (w.connectErr, s) := rfl

@[simp]
lemma pg_create (w : PgWorld) (s : PgState) :
    w.spec.createMigrationsTable s = (w.createErr, s) := rfl

@[simp]
lemma pg_version (w : PgWorld) (s : PgState) :
    w.spec.getCurrentVersion s = (.ok (maxId s.ledger), s) := rfl

@[simp]
lemma pg_close (w : PgWorld) (s : PgState) : w.spec.close s = s := rfl

lemma pg_apply_ok (w : PgWorld) (s : PgState) (m : Migration)
    (h : w.execErr m.migrationSQL = none) :
    w.spec.applyMigration s m = (none, pgAfter s [m]) := by
  simp [PgWorld.spec, h, pgAfter]

lemma pg_apply_fail (w : PgWorld) (s : PgState) (m : Migration) (e : String)
    (h : w.execErr m.migrationSQL = some e) :
    w.spec.applyMigration s m =
      (some ("failed to apply migration (" ++ m.name ++ "): " ++ e), s) := by
  simp [PgWorld.spec, h]

lemma pgAfter_nil (s : PgState) : pgAfter s [] = s := by
  simp [pgAfter]

lemma pgAfter_append (s : PgState) (l1 l2 : List Migration) :
    pgAfter (pgAfter s l1) l2 = pgAfter s (l1 ++ l2) := by
  simp [pgAfter, List.append_assoc]

/-- Running the loop over `pre ++ rest` when every migration of `pre`
applies successfully and no cancellation fires during `pre`: the loop
commits `pre` in order and continues on `rest`. -/
lemma pgRunLoop_append (w : PgWorld) (hl : Bool) (ctx : Ctx) :
    ∀ (pre rest : List Migration) (p : Nat) (s : PgState),
      (∀ m ∈ pre, w.execErr m.migrationSQL = none) →
      (∀ i, i < pre.length → ctx.errAt (p + i) = false) →
      (runLoop w.spec hl ctx (pre ++ rest) p s).res =
          (runLoop w.spec hl ctx rest (p + pre.length) (pgAfter s pre)).res ∧
      (runLoop w.spec hl ctx (pre ++ rest) p s).events =
          pre.map (fun m => Event.apply m.version) ++
            (runLoop w.spec hl ctx rest (p + pre.length) (pgAfter s pre)).events ∧
      (runLoop w.spec hl ctx (pre ++ rest) p s).applied =
          pre ++ (runLoop w.spec hl ctx rest (p + pre.length) (pgAfter s pre)).applied ∧
      (runLoop w.spec hl ctx (pre ++ rest) p s).state =
          (runLoop w.spec hl ctx rest (p + pre.length) (pgAfter s pre)).state := by
  intro pre
  induction pre with
  | nil =>
    intro rest p s _ _
    simp [pgAfter_nil]
  | cons m pre' ih =>
    intro rest p s hok hc
    have hm : w.execErr m.migrationSQL = none := hok m (List.mem_cons_self ..)
    have hcp : ctx.errAt p = false := by simpa using hc 0 (Nat.succ_pos _)
    have hshift : ∀ i, i < pre'.length → ctx.errAt (p + 1 + i) = false := by
      intro i hi
      have h := hc (i + 1) (by simp [Nat.succ_lt_succ hi])
      have harr : p + (i + 1) = p + 1 + i := by omega
      rwa [harr] at h
    have hih := ih rest (p + 1) (pgAfter s [m])
      (fun x hx => hok x (List.mem_cons_of_mem _ hx)) hshift
    have hplen : p + 1 + pre'.length = p + (pre'.length + 1) := by omega
    rw [hplen] at hih
    have hafter : pgAfter (pgAfter s [m]) pre' = pgAfter s (m :: pre') := by
      rw [pgAfter_append]
      rfl
    rw [hafter] at hih
    simp only [List.cons_append, runLoop, hcp, pg_apply_ok w s m hm,
      Bool.false_eq_true, if_false, List.length_cons, List.map_cons, List.append_eq]
    exact ⟨hih.1, by rw [hih.2.1], by rw [hih.2.2.1], hih.2.2.2⟩

lemma foldl_max_lt (k : Int) :
    ∀ (L : List (Int × String)) (a : Int), a < k → (∀ p ∈ L, p.1 < k) →
      L.foldl (fun acc row => max acc row.fst) a < k := by
  intro L
  induction L with
  | nil => intro a ha _; simpa using ha
  | cons r rest ih =>
    intro a ha h
    simp only [List.foldl_cons]
    exact ih (max a r.1) (max_lt ha (h r (List.mem_cons_self ..)))
      (fun p hp => h p (List.mem_cons_of_mem _ hp))

lemma foldl_max_init_le :
    ∀ (L : List (Int × String)) (a : Int), a ≤ L.foldl (fun acc row => max acc row.fst) a := by
  intro L
  induction L with
  | nil => intro a; simp
  | cons r rest ih =>
    intro a
    simp only [List.foldl_cons]
    exact le_trans (le_max_left a r.1) (ih (max a r.1))

lemma foldl_max_mem_le (q : Int × String) :
    ∀ (L : List (Int × String)) (a : Int), q ∈ L →
      q.1 ≤ L.foldl (fun acc row => max acc row.fst) a := by
  intro L
  induction L with
  | nil => intro a h; cases h
  | cons r rest ih =>
    intro a h
    simp only [List.foldl_cons]
    rcases List.mem_cons.mp h with h | h
    · subst h
      exact le_trans (le_max_right a q.1) (foldl_max_init_le rest _)
    · exact ih _ h

/-- Every ledger row's id is at most `maxId`. -/
lemma mem_le_maxId (L : List (Int × String)) (q : Int × String) (hq : q ∈ L) :
    q.1 ≤ maxId L := by
  cases L with
  | nil => cases hq
  | cons r rest =>
    rcases List.mem_cons.mp hq with h | h
    · subst h
      exact foldl_max_init_le rest q.1
    · exact foldl_max_mem_le q rest r.1 h

/-- `maxId` is below any strict upper bound `k > 0` of the row ids. -/
lemma maxId_lt (L : List (Int × String)) (k : Int) (hk : 0 < k)
    (h : ∀ p ∈ L, p.1 < k) : maxId L < k := by
  cases L with
  | nil => simpa [maxId] using hk
  | cons r rest =>
    exact foldl_max_lt k rest r.1 (h r (List.mem_cons_self ..))
      (fun p hp => h p (List.mem_cons_of_mem _ hp))

/-- C6: when `ApplyMigration` first fails at the migration `mf` (version
`k`), `RunMigrations` stops at once — the driver trace shows apply attempts
only for the successful prefix and for `mf` itself, nothing afterwards —
and returns the error naming version `k`; the prefix stays committed, the
ledger gains rows only for the prefix (none for `k`), and under the
contiguous-version convention the ledger's maximum stays below `k`. -/
theorem C6_apply_failure_stops_and_ledger_stays_below
    (w : PgWorld) (hl : Bool) (ms : List Migration) (s0 : PgState)
    (pre post : List Migration) (mf : Migration) (e : String)
    (hconn : w.connectErr = none) (hcreate : w.createErr = none)
    (hld : 0 ≤ maxId s0.ledger)
    (hsplit : (sortMigrations ms).drop (maxId s0.ledger).toNat = pre ++ mf :: post)
    (hcontig : ∀ (i : Nat) (m : Migration), (sortMigrations ms)[i]? = some m →
      m.version = (i : Int) + 1)
    (hpre : ∀ m ∈ pre, w.execErr m.migrationSQL = none)
    (hfail : w.execErr mf.migrationSQL = some e) :
    (runMigrations w.spec hl ⟨none⟩ ms s0).res =
      .fail (applyFailMsg mf.version
        ("failed to apply migration (" ++ mf.name ++ "): " ++ e)) ∧
    (runMigrations w.spec hl ⟨none⟩ ms s0).applied = pre ∧
    (runMigrations w.spec hl ⟨none⟩ ms s0).events =
      [.connect, .createTable, .getVersion] ++
        pre.map (fun m => Event.apply m.version) ++ [.apply mf.version] ++ [.close] ∧
    (runMigrations w.spec hl ⟨none⟩ ms s0).state.committed =
      s0.committed ++ pre.map (fun m => m.migrationSQL) ∧
    (runMigrations w.spec hl ⟨none⟩ ms s0).state.ledger =
      s0.ledger ++ pre.map (fun m => (m.version, m.name)) ∧
    maxId (runMigrations w.spec hl ⟨none⟩ ms s0).state.ledger < mf.version := by
  have hnv : ¬ maxId s0.ledger < 0 := not_lt.mpr hld
  have hloopPre := pgRunLoop_append w hl ⟨none⟩ pre (mf :: post) 0 s0 hpre
    (fun i _ => errAt_none _)
  have hhead :
      runLoop w.spec hl ⟨none⟩ (mf :: post) (0 + pre.length) (pgAfter s0 pre) =
        ⟨.fail (applyFailMsg mf.version
            ("failed to apply migration (" ++ mf.name ++ "): " ++ e)),
          [.apply mf.version],
          emit hl (.info (applyingMsg mf)) ++
            emit hl (.error (applyFailMsg mf.version
              ("failed to apply migration (" ++ mf.name ++ "): " ++ e))),
          [], pgAfter s0 pre⟩ := by
    simp [runLoop, errAt_none, pg_apply_fail w _ mf e hfail]
  have hout :
      (runMigrations w.spec hl ⟨none⟩ ms s0).res =
          (runLoop w.spec hl ⟨none⟩ (mf :: post) (0 + pre.length) (pgAfter s0 pre)).res ∧
      (runMigrations w.spec hl ⟨none⟩ ms s0).applied =
          pre ++ (runLoop w.spec hl ⟨none⟩ (mf :: post) (0 + pre.length)
            (pgAfter s0 pre)).applied ∧
      (runMigrations w.spec hl ⟨none⟩ ms s0).events =
          [.connect, .createTable, .getVersion] ++
            (pre.map (fun m => Event.apply m.version) ++
              (runLoop w.spec hl ⟨none⟩ (mf :: post) (0 + pre.length)
                (pgAfter s0 pre)).events) ++ [.close] ∧
      (runMigrations w.spec hl ⟨none⟩ ms s0).state =
          (runLoop w.spec hl ⟨none⟩ (mf :: post) (0 + pre.length)
            (pgAfter s0 pre)).state := by
    simp only [runMigrations, pg_connect, pg_create, pg_version, pg_close,
      hconn, hcreate, hnv, if_false, hsplit]
    exact ⟨hloopPre.1, hloopPre.2.2.1, by rw [hloopPre.2.1], hloopPre.2.2.2.symm ▸ rfl⟩
  have hstate : (runMigrations w.spec hl ⟨none⟩ ms s0).state = pgAfter s0 pre := by
    rw [hout.2.2.2, hhead]
  have hk : mf.version = (((maxId s0.ledger).toNat + pre.length : Nat) : Int) + 1 := by
    have h1 : ((sortMigrations ms).drop (maxId s0.ledger).toNat)[pre.length]? = some mf := by
      rw [hsplit, List.getElem?_append_right (le_refl pre.length)]
      simp
    rw [List.getElem?_drop] at h1
    exact hcontig _ _ h1
  have hprever : ∀ m ∈ pre, m.version < mf.version := by
    intro m hm
    rcases List.mem_iff_getElem?.mp hm with ⟨i, hi⟩
    have hilt : i < pre.length := by
      rcases List.getElem?_eq_some.mp hi with ⟨h, _⟩
      exact h
    have h2 : ((sortMigrations ms).drop (maxId s0.ledger).toNat)[i]? = some m := by
      rw [hsplit, List.getElem?_append_left hilt]
      exact hi
    rw [List.getElem?_drop] at h2
    have := hcontig _ _ h2
    rw [this, hk]
    push_cast
    omega
  refine ⟨?_, ?_, ?_, ?_, ?_, ?_⟩
  · rw [hout.1, hhead]
  · rw [hout.2.1, hhead]
    simp
  · rw [hout.2.2.1, hhead]
    simp [List.append_assoc]
  · rw [hstate]
    rfl
  · rw [hstate]
    rfl
  · rw [hstate]
    have hk0 : 0 < mf.version := by rw [hk]; positivity
    refine maxId_lt _ _ hk0 ?_
    intro q hq
    rcases List.mem_append.mp hq with hq | hq
    · have h1 : q.1 ≤ maxId s0.ledger := mem_le_maxId _ _ hq
      have h2 : (((maxId s0.ledger).toNat : Int)) = maxId s0.ledger :=
        Int.toNat_of_nonneg hld
      rw [hk]
      push_cast
      omega
    · rcases List.mem_map.mp hq with ⟨m, hm, hqm⟩
      rw [← hqm]
      exact hprever m hm

/-- Witness for C6 at a concrete two-migration set whose second migration
fails. -/
theorem C6_apply_failure_stops_witness :
    (runMigrations c6World.spec true ⟨none⟩ [c6m2, c6m1] c6s0).res =
      .fail (applyFailMsg c6m2.version
        ("failed to apply migration (" ++ c6m2.name ++ "): " ++ "boom")) ∧
    (runMigrations c6World.spec true ⟨none⟩ [c6m2, c6m1] c6s0).applied = [c6m1] ∧
    (runMigrations c6World.spec true ⟨none⟩ [c6m2, c6m1] c6s0).events =
      [.connect, .createTable, .getVersion] ++
        [c6m1].map (fun m => Event.apply m.version) ++ [.apply c6m2.version] ++ [.close] ∧
    (runMigrations c6World.spec true ⟨none⟩ [c6m2, c6m1] c6s0).state.committed =
      c6s0.committed ++ [c6m1].map (fun m => m.migrationSQL) ∧
    (runMigrations c6World.spec true ⟨none⟩ [c6m2, c6m1] c6s0).state.ledger =
      c6s0.ledger ++ [c6m1].map (fun m => (m.version, m.name)) ∧
    maxId (runMigrations c6World.spec true ⟨none⟩ [c6m2, c6m1] c6s0).state.ledger <
      c6m2.version :=
  C6_apply_failure_stops_and_ledger_stays_below c6World true [c6m2, c6m1] c6s0
    [c6m1] [] c6m2 "boom" rfl rfl (by decide) (by decide)
    (by
      intro i m h
      have hs : sortMigrations [c6m2, c6m1] = [c6m1, c6m2] := by decide
      rw [hs] at h
      rcases i with _ | _ | n
      · simp at h
        rw [← h]
        decide
      · simp at h
        rw [← h]
        decide
      · simp at h)
    (by decide) (by decide)

/-- C8: `RunMigrations` checks the context before each apply; when the
context cancels at poll `c` with more than `c` migrations pending, the run
returns the cancellation error with exactly the first `c` pending
migrations applied — their ledger rows and SQL stay committed, no later
migration is attempted (`c = 0`: cancelled before any migration starts,
zero applied). -/
theorem C8_cancellation_applies_exact_prefix
    (w : PgWorld) (hl : Bool) (ms : List Migration) (s0 : PgState) (c : Nat)
    (hconn : w.connectErr = none) (hcreate : w.createErr = none)
    (hld : 0 ≤ maxId s0.ledger)
    (hc : c < ((sortMigrations ms).drop (maxId s0.ledger).toNat).length)
    (hpre : ∀ m ∈ ((sortMigrations ms).drop (maxId s0.ledger).toNat).take c,
      w.execErr m.migrationSQL = none) :
    (runMigrations w.spec hl ⟨some c⟩ ms s0).res = .fail cancelMsg ∧
    (runMigrations w.spec hl ⟨some c⟩ ms s0).applied =
      ((sortMigrations ms).drop (maxId s0.ledger).toNat).take c ∧
    (runMigrations w.spec hl ⟨some c⟩ ms s0).events =
      [.connect, .createTable, .getVersion] ++
        (((sortMigrations ms).drop (maxId s0.ledger).toNat).take c).map
          (fun m => Event.apply m.version) ++ [.close] ∧
    (runMigrations w.spec hl ⟨some c⟩ ms s0).state.ledger =
      s0.ledger ++ (((sortMigrations ms).drop (maxId s0.ledger).toNat).take c).map
        (fun m => (m.version, m.name)) ∧
    (runMigrations w.spec hl ⟨some c⟩ ms s0).state.committed =
      s0.committed ++ (((sortMigrations ms).drop (maxId s0.ledger).toNat).take c).map
        (fun m => m.migrationSQL) := by
  have hnv : ¬ maxId s0.ledger < 0 := not_lt.mpr hld
  have htc : (((sortMigrations ms).drop (maxId s0.ledger).toNat).take c).length = c := by
    rw [List.length_take]
    omega
  have hcl : ∀ i, i < (((sortMigrations ms).drop (maxId s0.ledger).toNat).take c).length →
      Ctx.errAt ⟨some c⟩ (0 + i) = false := by
    intro i hi
    rw [htc] at hi
    simp [Ctx.errAt]
    omega
  have hloopPre := pgRunLoop_append w hl ⟨some c⟩
    (((sortMigrations ms).drop (maxId s0.ledger).toNat).take c)
    (((sortMigrations ms).drop (maxId s0.ledger).toNat).drop c) 0 s0 hpre hcl
  rw [List.take_append_drop] at hloopPre
  have hdrop : ((sortMigrations ms).drop (maxId s0.ledger).toNat).drop c =
      ((sortMigrations ms).drop (maxId s0.ledger).toNat)[c] ::
        ((sortMigrations ms).drop (maxId s0.ledger).toNat).drop (c + 1) :=
    List.drop_eq_getElem_cons hc
  have hcan : Ctx.errAt ⟨some c⟩
      (0 + (((sortMigrations ms).drop (maxId s0.ledger).toNat).take c).length) = true := by
    simp [Ctx.errAt, htc]
  have hhead : runLoop w.spec hl ⟨some c⟩
      (((sortMigrations ms).drop (maxId s0.ledger).toNat).drop c)
      (0 + (((sortMigrations ms).drop (maxId s0.ledger).toNat).take c).length)
      (pgAfter s0 (((sortMigrations ms).drop (maxId s0.ledger).toNat).take c)) =
      ⟨.fail cancelMsg, [], [], [],
        pgAfter s0 (((sortMigrations ms).drop (maxId s0.ledger).toNat).take c)⟩ := by
    rw [hdrop]
    simp only [runLoop]
    rw [hcan]
    simp
  have hout :
      (runMigrations w.spec hl ⟨some c⟩ ms s0).res =
          (runLoop w.spec hl ⟨some c⟩
            (((sortMigrations ms).drop (maxId s0.ledger).toNat).drop c)
            (0 + (((sortMigrations ms).drop (maxId s0.ledger).toNat).take c).length)
            (pgAfter s0 (((sortMigrations ms).drop (maxId s0.ledger).toNat).take c))).res ∧
      (runMigrations w.spec hl ⟨some c⟩ ms s0).applied =
          ((sortMigrations ms).drop (maxId s0.ledger).toNat).take c ++
            (runLoop w.spec hl ⟨some c⟩
              (((sortMigrations ms).drop (maxId s0.ledger).toNat).drop c)
              (0 + (((sortMigrations ms).drop (maxId s0.ledger).toNat).take c).length)
              (pgAfter s0 (((sortMigrations ms).drop (maxId s0.ledger).toNat).take c))).applied ∧
      (runMigrations w.spec hl ⟨some c⟩ ms s0).events =
          [Event.connect, Event.createTable, Event.getVersion] ++
            ((((sortMigrations ms).drop (maxId s0.ledger).toNat).take c).map
                (fun m => Event.apply m.version) ++
              (runLoop w.spec hl ⟨some c⟩
                (((sortMigrations ms).drop (maxId s0.ledger).toNat).drop c)
                (0 + (((sortMigrations ms).drop (maxId s0.ledger).toNat).take c).length)
                (pgAfter s0
                  (((sortMigrations ms).drop (maxId s0.ledger).toNat).take c))).events) ++
            [Event.close] ∧
      (runMigrations w.spec hl ⟨some c⟩ ms s0).state =
          (runLoop w.spec hl ⟨some c⟩
            (((sortMigrations ms).drop (maxId s0.ledger).toNat).drop c)
            (0 + (((sortMigrations ms).drop (maxId s0.ledger).toNat).take c).length)
            (pgAfter s0 (((sortMigrations ms).drop (maxId s0.ledger).toNat).take c))).state := by
    simp only [runMigrations, pg_connect, pg_create, pg_version, pg_close,
      hconn, hcreate, hnv, if_false]
    exact ⟨hloopPre.1, hloopPre.2.2.1, by rw [hloopPre.2.1], hloopPre.2.2.2.symm ▸ rfl⟩
  have hstate : (runMigrations w.spec hl ⟨some c⟩ ms s0).state =
      pgAfter s0 (((sortMigrations ms).drop (maxId s0.ledger).toNat).take c) := by
    rw [hout.2.2.2, hhead]
  refine ⟨?_, ?_, ?_, ?_, ?_⟩
  · rw [hout.1, hhead]
  · rw [hout.2.1, hhead]
    simp
  · rw [hout.2.2.1, hhead]
    simp [List.append_assoc]
  · rw [hstate]
    rfl
  · rw [hstate]
    rfl

/-- Witness for C8: cancellation at poll 1 with two pending migrations
applies exactly the first. -/
theorem C8_cancellation_applies_exact_prefix_witness :
    (runMigrations c6World.spec true ⟨some 1⟩ [c6m1, ⟨2, "b", "OK2", ""⟩] c6s0).res =
      .fail cancelMsg ∧
    (runMigrations c6World.spec true ⟨some 1⟩ [c6m1, ⟨2, "b", "OK2", ""⟩] c6s0).applied =
      ((sortMigrations [c6m1, ⟨2, "b", "OK2", ""⟩]).drop (maxId c6s0.ledger).toNat).take 1 ∧
    (runMigrations c6World.spec true ⟨some 1⟩ [c6m1, ⟨2, "b", "OK2", ""⟩] c6s0).events =
      [.connect, .createTable, .getVersion] ++
        (((sortMigrations [c6m1, ⟨2, "b", "OK2", ""⟩]).drop
            (maxId c6s0.ledger).toNat).take 1).map (fun m => Event.apply m.version) ++
        [.close] ∧
    (runMigrations c6World.spec true ⟨some 1⟩ [c6m1, ⟨2, "b", "OK2", ""⟩] c6s0).state.ledger =
      c6s0.ledger ++ (((sortMigrations [c6m1, ⟨2, "b", "OK2", ""⟩]).drop
        (maxId c6s0.ledger).toNat).take 1).map (fun m => (m.version, m.name)) ∧
    (runMigrations c6World.spec true ⟨some 1⟩
        [c6m1, ⟨2, "b", "OK2", ""⟩] c6s0).state.committed =
      c6s0.committed ++ (((sortMigrations [c6m1, ⟨2, "b", "OK2", ""⟩]).drop
        (maxId c6s0.ledger).toNat).take 1).map (fun m => m.migrationSQL) :=
  C8_cancellation_applies_exact_prefix c6World true [c6m1, ⟨2, "b", "OK2", ""⟩] c6s0 1
    rfl rfl (by decide) (by decide) (by decide)

/-! ### Lemmas about the loader -/

lemma trimSuffix_append (x suf : List Char) : trimSuffix (x ++ suf) suf = x := by
  unfold trimSuffix
  rw [if_pos (by simp), List.length_append, Nat.add_sub_cancel, List.take_left]

lemma findIdx_underscore (vs rest : List Char) (hnou : ∀ c ∈ vs, c ≠ '_') :
    ∀ i : Nat, (vs ++ '_' :: rest).findIdx? (fun c => c = '_') i = some (i + vs.length) := by
  induction vs with
  | nil => intro i; simp
  | cons c vs' ih =>
    intro i
    have hc : ¬ (c = '_') := hnou c (List.mem_cons_self ..)
    have ih' := ih (fun x hx => hnou x (List.mem_cons_of_mem _ hx)) (i + 1)
    simp only [List.cons_append, List.findIdx?_cons, decide_eq_true_eq, if_neg hc, ih',
      List.length_cons]
    congr 1
    omega

lemma take_underscore (vs rest : List Char) :
    (vs ++ '_' :: rest).take vs.length = vs := List.take_left vs ('_' :: rest)

lemma drop_underscore (vs rest : List Char) :
    (vs ++ '_' :: rest).drop (vs.length + 1) = rest := by
  have h : vs ++ '_' :: rest = (vs ++ ['_']) ++ rest := by simp
  rw [h]
  exact List.drop_left' (by simp)

/-- Parsing a well-formed migration file name `<vs>_<rest>.sql` (version
prefix `vs` underscore-free and reading as `v > 0`, name part `rest`
arbitrary, not a fixture name, contents readable): the migration has
version `v`, name `rest` (the `.sql` suffix stripped before the split), the
read SQL, and — when fixtures are enabled — the fixture file's contents if
it exists, empty otherwise. -/
lemma parse_valid (afs : FileSys) (vs rest : List Char) (v : Int) (sql : String) (fx : Bool)
    (hv : atoiL vs = some v) (hpos : 0 < v)
    (hnou : ∀ c ∈ vs, c ≠ '_')
    (hnofix : ¬ fixtureSuffix.isSuffixOf (vs ++ '_' :: rest ++ sqlSuffix))
    (hread : afs.contents (vs ++ '_' :: rest ++ sqlSuffix) = some sql) :
    parseMigrationFile afs (vs ++ '_' :: rest ++ sqlSuffix) fx =
      .ok (some ⟨v, String.mk rest, sql,
        if fx then (afs.contents (vs ++ '_' :: rest ++ fixtureSuffix)).getD "" else ""⟩) := by
  have hsql : sqlSuffix.isSuffixOf (vs ++ '_' :: rest ++ sqlSuffix) := by
    simp only [List.isSuffixOf_iff_suffix]
    exact ⟨vs ++ '_' :: rest, rfl⟩
  simp only [parseMigrationFile, if_neg (not_not_intro hsql), if_neg hnofix,
    trimSuffix_append, findIdx_underscore vs rest hnou 0, Nat.zero_add,
    take_underscore, drop_underscore, hv, if_neg (not_le.mpr hpos), hread]
  cases fx with
  | false => rfl
  | true =>
    simp only [if_true]
    cases hfx : afs.contents (vs ++ '_' :: rest ++ fixtureSuffix) <;>
      simp [hfx, Option.getD]

/-- The parser never produces the `no migrations found` error. -/
lemma parse_ne_noMigrationsFound (afs : FileSys) (n : List Char) (fx : Bool) :
    parseMigrationFile afs n fx ≠ .error .noMigrationsFound := by
  by_cases h1 : sqlSuffix.isSuffixOf n
  · by_cases h2 : fixtureSuffix.isSuffixOf n
    · simp [parseMigrationFile, h1, h2]
    · rcases h3 : (trimSuffix n sqlSuffix).findIdx? (fun c => c = '_') with _ | idx
      · simp [parseMigrationFile, h1, h2, h3]
      · rcases h4 : atoiL ((trimSuffix n sqlSuffix).take idx) with _ | v
        · simp [parseMigrationFile, h1, h2, h3, h4]
        · by_cases h5 : v ≤ 0
          · simp [parseMigrationFile, h1, h2, h3, h4, h5]
          · rcases h6 : afs.contents (trimSuffix n sqlSuffix ++ sqlSuffix) with _ | sql
            · simp [parseMigrationFile, h1, h2, h3, h4, h5, h6]
            · cases fx with
              | false => simp [parseMigrationFile, h1, h2, h3, h4, h5, h6]
              | true =>
                rcases h7 : afs.contents (trimSuffix n sqlSuffix ++ fixtureSuffix)
                    with _ | fxs <;>
                  simp [parseMigrationFile, h1, h2, h3, h4, h5, h6, h7]
  · simp [parseMigrationFile, h1]

/-- The entry loop never produces the `no migrations found` error. -/
lemma loadEntries_ne_noMigrationsFound (afs : FileSys) (fx : Bool) :
    ∀ es, loadEntries afs fx es ≠ .error .noMigrationsFound := by
  intro es
  induction es with
  | nil => simp [loadEntries]
  | cons f rest ih =>
    by_cases hd : f.isDir
    · simpa [loadEntries, hd] using ih
    · rcases hp : parseMigrationFile afs f.name fx with e | o
      · have hne := parse_ne_noMigrationsFound afs f.name fx
        rw [hp] at hne
        simpa [loadEntries, hd, hp] using hne
      · cases o with
        | none => simpa [loadEntries, hd, hp] using ih
        | some m =>
          rcases hr : loadEntries afs fx rest with e' | ms'
          · rw [hr] at ih
            simpa [loadEntries, hd, hp, hr] using ih
          · simp [loadEntries, hd, hp, hr]

/-- The entry loop maps a list of directory entries to `ok []`. -/
lemma loadEntries_all_dirs (afs : FileSys) (fx : Bool) :
    ∀ es, (∀ f ∈ es, f.isDir) → loadEntries afs fx es = .ok [] := by
  intro es
  induction es with
  | nil => intro _; rfl
  | cons f rest ih =>
    intro h
    have hd : f.isDir := h f (List.mem_cons_self ..)
    simp [loadEntries, hd, ih (fun x hx => h x (List.mem_cons_of_mem _ hx))]

/-- C4 counterexample: a source containing only a subdirectory loads
successfully as an empty migration list, while an empty source fails with
`no migrations found` — the emptiness check counts raw directory entries
before any filtering, so the two sources do not behave identically. -/
theorem C4_counterexample_only_subdirs_loads_ok :
    LoadMigrationsFromFS c4DirFS true = .ok [] ∧
    LoadMigrationsFromFS c4EmptyFS true = .error .noMigrationsFound := by
  decide

/-- C4 amended: loading fails with `no migrations found` exactly when the
source yields zero raw entries of any kind; a nonempty source containing
only subdirectories loads successfully with an empty migration list. -/
theorem C4_amended_error_iff_no_raw_entries (afs : FileSys) (fixtures : Bool)
    (h : afs.readDirErr = none) :
    (LoadMigrationsFromFS afs fixtures = .error .noMigrationsFound ↔ afs.entries = []) ∧
    (afs.entries ≠ [] → (∀ f ∈ afs.entries, f.isDir) →
      LoadMigrationsFromFS afs fixtures = .ok []) := by
  constructor
  · constructor
    · intro hE
      by_contra hne
      have hlen : ¬ afs.entries.length = 0 := by
        simpa [List.length_eq_zero] using hne
      simp only [LoadMigrationsFromFS, h, if_neg hlen] at hE
      exact loadEntries_ne_noMigrationsFound afs fixtures _ hE
    · intro hE
      simp [LoadMigrationsFromFS, h, hE]
  · intro hne hdirs
    have hlen : ¬ afs.entries.length = 0 := by
      simpa [List.length_eq_zero] using hne
    simp only [LoadMigrationsFromFS, h, if_neg hlen]
    exact loadEntries_all_dirs afs fixtures _ hdirs

/-- Witness for the amended C4 at the subdirectory-only source. -/
theorem C4_amended_error_iff_no_raw_entries_witness :
    (LoadMigrationsFromFS c4DirFS true = .error .noMigrationsFound ↔ c4DirFS.entries = []) ∧
    (c4DirFS.entries ≠ [] → (∀ f ∈ c4DirFS.entries, f.isDir) →
      LoadMigrationsFromFS c4DirFS true = .ok []) :=
  C4_amended_error_iff_no_raw_entries c4DirFS true rfl

/-- C5 counterexample: parsing `10_add_index_to_users_table.sql` yields
version 10 but name `add_index_to_users_table` — the `.sql` suffix is
trimmed before the split at the first underscore, so the name is not
`add_index_to_users_table.sql` as claimed. -/
theorem C5_counterexample_name_excludes_sql_suffix :
    parseMigrationFile c5FS "10_add_index_to_users_table.sql".data false =
      .ok (some ⟨10, "add_index_to_users_table", "CREATE INDEX", ""⟩) ∧
    ("add_index_to_users_table" : String) ≠ "add_index_to_users_table.sql" := by
  constructor
  · decide
  · decide

/-- C5 amended: for every valid file name `<v>_<name>.sql` with integer
`v > 0`, loading extracts version `v` and name `<name>` exactly — the
`.sql` suffix stripped — including when `<name>` contains underscores (the
version is the substring up to the first underscore). -/
theorem C5_amended_name_is_rest_without_sql (afs : FileSys) (vs rest : List Char)
    (v : Int) (sql : String)
    (hv : atoiL vs = some v) (hpos : 0 < v)
    (hnou : ∀ c ∈ vs, c ≠ '_')
    (hnofix : ¬ fixtureSuffix.isSuffixOf (vs ++ '_' :: rest ++ sqlSuffix))
    (hread : afs.contents (vs ++ '_' :: rest ++ sqlSuffix) = some sql) :
    parseMigrationFile afs (vs ++ '_' :: rest ++ sqlSuffix) false =
      .ok (some ⟨v, String.mk rest, sql, ""⟩) := by
  simpa using parse_valid afs vs rest v sql false hv hpos hnou hnofix hread

/-- Witness for the amended C5 at the concrete file of `c5FS`. -/
theorem C5_amended_name_is_rest_without_sql_witness :
    parseMigrationFile c5FS
      ("10".data ++ '_' :: "add_index_to_users_table".data ++ sqlSuffix) false =
      .ok (some ⟨10, String.mk "add_index_to_users_table".data, "CREATE INDEX", ""⟩) :=
  C5_amended_name_is_rest_without_sql c5FS "10".data "add_index_to_users_table".data 10
    "CREATE INDEX" (by decide) (by decide) (by decide) (by decide) (by decide)

/-- C9: fixture handling of the loader.  Entries named `*.fixture.sql` are
skipped by the parser (and removing such an entry from the listing does not
change the load result, so they never reach the primary migration list);
entries not ending in `.sql` are silently skipped; for a valid migration
file with fixtures enabled, the same-stem fixture file's contents populate
`fixturesSQL` when it exists and `fixturesSQL` is empty when it does not —
never an error. -/
theorem C9_fixture_handling (afs : FileSys) :
    (∀ (n : List Char) (fx : Bool), fixtureSuffix.isSuffixOf n →
      parseMigrationFile afs n fx = .ok none) ∧
    (∀ (n : List Char) (fx : Bool), ¬ sqlSuffix.isSuffixOf n →
      parseMigrationFile afs n fx = .ok none) ∧
    (∀ (vs rest : List Char) (v : Int) (sql : String),
      atoiL vs = some v → 0 < v → (∀ c ∈ vs, c ≠ '_') →
      ¬ fixtureSuffix.isSuffixOf (vs ++ '_' :: rest ++ sqlSuffix) →
      afs.contents (vs ++ '_' :: rest ++ sqlSuffix) = some sql →
      parseMigrationFile afs (vs ++ '_' :: rest ++ sqlSuffix) true =
        .ok (some ⟨v, String.mk rest, sql,
          (afs.contents (vs ++ '_' :: rest ++ fixtureSuffix)).getD ""⟩)) ∧
    (∀ (fx : Bool) (pre post : List FSEntry) (f : FSEntry),
      f.isDir = false → fixtureSuffix.isSuffixOf f.name →
      loadEntries afs fx (pre ++ f :: post) = loadEntries afs fx (pre ++ post)) := by
  have hskip : ∀ (n : List Char) (fx : Bool), fixtureSuffix.isSuffixOf n →
      parseMigrationFile afs n fx = .ok none := by
    intro n fx hfix
    have hsql : sqlSuffix.isSuffixOf n := by
      simp only [List.isSuffixOf_iff_suffix] at hfix ⊢
      exact List.IsSuffix.trans ⟨".fixture".data, by decide⟩ hfix
    simp [parseMigrationFile, hsql, hfix]
  refine ⟨hskip, ?_, ?_, ?_⟩
  · intro n fx hn
    simp [parseMigrationFile, hn]
  · intro vs rest v sql hv hpos hnou hnofix hread
    simpa using parse_valid afs vs rest v sql true hv hpos hnou hnofix hread
  · intro fx pre post f hd hfix
    induction pre with
    | nil =>
      simp [loadEntries, hd, hskip f.name fx hfix]
    | cons g pre' ih =>
      simp only [List.cons_append, loadEntries, List.append_eq]
      rw [ih]

/-- Witness for C9 at the concrete source `c9FS`. -/
theorem C9_fixture_handling_witness :
    parseMigrationFile c9FS "1_a.fixture.sql".data true = .ok none ∧
    parseMigrationFile c9FS "readme.txt".data true = .ok none ∧
    parseMigrationFile c9FS ("1".data ++ '_' :: "a".data ++ sqlSuffix) true =
      .ok (some ⟨1, String.mk "a".data, "CREATE",
        (c9FS.contents ("1".data ++ '_' :: "a".data ++ fixtureSuffix)).getD ""⟩) ∧
    loadEntries c9FS true ([] ++ ⟨"1_a.fixture.sql".data, false⟩ :: []) =
      loadEntries c9FS true ([] ++ []) :=
  ⟨(C9_fixture_handling c9FS).1 _ _ (by decide),
   (C9_fixture_handling c9FS).2.1 _ _ (by decide),
   (C9_fixture_handling c9FS).2.2.1 _ _ _ _ (by decide) (by decide) (by decide)
     (by decide) (by decide),
   (C9_fixture_handling c9FS).2.2.2 true [] [] ⟨"1_a.fixture.sql".data, false⟩ rfl
     (by decide)⟩

/-- Witness for C7: a successful connect leads to exactly one final `close`
call; a failed connect leads to a bare `connect` trace. -/
theorem C7_close_exactly_once_witness :
    ((runMigrations okDriver.spec true ⟨none⟩ [mig1] ()).events.count Event.close = 1 ∧
      (runMigrations okDriver.spec true ⟨none⟩ [mig1] ()).events.getLast? =
        some Event.close) ∧
    (runMigrations (⟨some "refused", none, .ok 0, fun _ => none⟩ : MockDriver).spec true
      ⟨none⟩ [mig1] ()).events = [Event.connect] :=
  ⟨(C7_close_exactly_once okDriver.spec true ⟨none⟩ [mig1] ()).1 rfl,
   (C7_close_exactly_once (⟨some "refused", none, .ok 0, fun _ => none⟩ : MockDriver).spec
      true ⟨none⟩ [mig1] ()).2 "refused" rfl⟩

end GoMigrator
